import Mathlib

/-!
# Verification of the json2xml streaming converter

Shallow embedding of `convert.go` from the json2xml package: a streaming
converter turning a pull-based sequence of JSON tokens into a sequence of
XML tokens.

Modelling notes:
* The Go `Converter` holds a slice `types []ttype` used as a stack with the
  top at the *end* of the slice; here we keep the stack as a `List Ttype`
  with the top at the *head*.
* The `JSONDecoder` collaborator is modelled as a `List JToken`: pulling a
  token is taking the head, and pulling from the empty list is the `io.EOF`
  error.  The `float64` case of `json.Token` is not modelled: its char-data
  is produced by `strconv.FormatFloat(f, 'f', -1, 64)`, an IEEE-754
  shortest-round-trip decimal formatter that a shallow embedding over exact
  data cannot represent.  `json.Number` tokens (which the package encourages
  sources to produce) are carried as their literal text.
* `json.Delim` can only be one of `{ } [ ]`, so the `default` branch of the
  Go delimiter switch (returning `ErrUnknownToken`) is unreachable and has
  no counterpart here; the outer `default` branch is the `JToken.other`
  constructor.
* Go's methods mutate the receiver; here `token` returns the result
  together with the updated converter and the remaining source, on error
  paths as well, so that state preservation on errors is observable.
-/

namespace Json2Xml

/-- The six JSON value kinds, `ttype` in the Go source. -/
inductive Ttype where
  | typObject
  | typArray
  | typBool
  | typNumber
  | typString
  | typNull
deriving DecidableEq, Repr

/-- `ttypeNames`: the XML element name of each type tag. -/
def ttypeNames : Ttype → String
  | .typObject => "object"
  | .typArray => "array"
  | .typBool => "boolean"
  | .typNumber => "number"
  | .typString => "string"
  | .typNull => "null"

/-- The four possible values of `json.Delim`. -/
inductive JDelim where
  | objOpen
  | arrOpen
  | objClose
  | arrClose
deriving DecidableEq, Repr

/-- A `json.Token` pulled from the `JSONDecoder`.  `num` is a `json.Number`
(pre-tokenized literal text); `other` stands for any token shape outside the
cases the converter recognizes (the `default` branch of the type switch). -/
inductive JToken where
  | delim (d : JDelim)
  | bool (b : Bool)
  | num (s : String)
  | str (s : String)
  | null
  | other
deriving DecidableEq, Repr

/-- An `xml.Token` handed to the `XMLEncoder`.  `start` carries the element
name and the optional single `name`-keyed attribute value. -/
inductive XToken where
  | start (name : String) (attr : Option String)
  | charData (s : String)
  | endElement (name : String)
deriving DecidableEq, Repr

/-- The `Converter` struct: the nesting stack (top at the head) and the
pending char-data slot.  The `decoder` field is passed separately as the
remaining token list. -/
structure Converter where
  types : List Ttype
  data : Option String
deriving DecidableEq, Repr

/-- The errors `Converter.Token` can return: the converter's own three
sentinel errors, plus `io.EOF` propagated from the decoder. -/
inductive ConvErr where
  | eof
  | invalidKey
  | unknownToken
  | invalidToken
deriving DecidableEq, Repr

/-- `cTrue`. -/
def cTrue : String := "true"

/-- `cFalse`. -/
def cFalse : String := "false"

/-- `Converter.outputStart`: push the type tag and build the start-element,
with a `name` attribute exactly when a key name is present. -/
def outputStart (c : Converter) (typ : Ttype) (keyName : Option String) :
    XToken × Converter :=
  (XToken.start (ttypeNames typ) keyName, ⟨typ :: c.types, c.data⟩)

/-- `Converter.outputType`: store the pending char-data and emit the
start-element. -/
def outputType (c : Converter) (typ : Ttype) (data keyName : Option String) :
    XToken × Converter :=
  let p := outputStart ⟨c.types, data⟩ typ keyName
  (p.1, p.2)

/-- `Converter.outputEnd`: pop the stack and emit the matching end-element.
The Go code indexes the last slice element unconditionally and would panic
on an empty stack; both call sites guard `len(c.types) > 0`, so the `[]`
case below is unreachable. -/
def outputEnd (c : Converter) : XToken × Converter :=
  match c.types with
  | typ :: rest => (XToken.endElement (ttypeNames typ), ⟨rest, c.data⟩)
  | [] => (XToken.endElement "", c)

/-- The dispatch switch of `Converter.Token` (lines 135-174): act on the
(possibly re-pulled) token with the extracted key name, if any. -/
def tokenDispatch (c : Converter) (tok : JToken) (keyName : Option String)
    (src : List JToken) : Except ConvErr XToken × Converter × List JToken :=
  match tok with
  | .delim .objOpen =>
      let p := outputStart c .typObject keyName
      (.ok p.1, p.2, src)
  | .delim .arrOpen =>
      let p := outputStart c .typArray keyName
      (.ok p.1, p.2, src)
  | .delim .objClose =>
      match c.types with
      | .typObject :: _ =>
          let p := outputEnd c
          (.ok p.1, p.2, src)
      | _ => (.error .invalidToken, c, src)
  | .delim .arrClose =>
      match c.types with
      | .typArray :: _ =>
          let p := outputEnd c
          (.ok p.1, p.2, src)
      | _ => (.error .invalidToken, c, src)
  | .bool b =>
      let p := outputType c .typBool (some (if b then cTrue else cFalse)) keyName
      (.ok p.1, p.2, src)
  | .num s =>
      let p := outputType c .typNumber (some s) keyName
      (.ok p.1, p.2, src)
  | .str s =>
      let p := outputType c .typString (some s) keyName
      (.ok p.1, p.2, src)
  | .null =>
      let p := outputType c .typNull none keyName
      (.ok p.1, p.2, src)
  | .other => (.error .unknownToken, c, src)

/-- The pull phase of `Converter.Token` (lines 114-133): pull a token; when
the open container on top of the stack is an object and the token is not the
object-close delimiter, the token must be a string key, which is stored and
a second token (the member's value) is pulled. -/
def tokenPull (c : Converter) (src : List JToken) :
    Except ConvErr XToken × Converter × List JToken :=
  match src with
  | [] => (.error .eof, c, [])
  | tok :: srcRest =>
      match c.types with
      | .typObject :: _ =>
          if tok = .delim .objClose then
            tokenDispatch c tok none srcRest
          else
            match tok with
            | .str key =>
                match srcRest with
                | [] => (.error .eof, c, [])
                | tok2 :: srcRest2 => tokenDispatch c tok2 (some key) srcRest2
            | _ => (.error .invalidKey, c, srcRest)
      | _ => tokenDispatch c tok none srcRest

/-- `Converter.Token`: emit pending char-data if set; otherwise close the
scalar/null element on top of the stack if one is there; otherwise pull from
the source and dispatch. -/
def token (c : Converter) (src : List JToken) :
    Except ConvErr XToken × Converter × List JToken :=
  match c.data with
  | some d => (.ok (.charData d), ⟨c.types, none⟩, src)
  | none =>
      match c.types with
      | .typObject :: _ => tokenPull c src
      | .typArray :: _ => tokenPull c src
      | _ :: _ =>
          let p := outputEnd c
          (.ok p.1, p.2, src)
      | [] => tokenPull c src

/-- Contribution of the pending char-data slot to the termination measure. -/
def dBit : Option String → Nat
  | none => 0
  | some _ => 1

/-- Termination measure for the driving loop: each successful `token` call
consumes source tokens, pops the stack, or clears the pending slot. -/
def meas (c : Converter) (src : List JToken) : Nat :=
  3 * src.length + c.types.length + dBit c.data

theorem tokenDispatch_ok_src (c : Converter) (tok : JToken) (keyName : Option String)
    (src : List JToken) {t : XToken} {c' : Converter} {src' : List JToken}
    (h : tokenDispatch c tok keyName src = (.ok t, c', src')) :
    src' = src ∧ c'.types.length + dBit c'.data ≤ c.types.length + dBit c.data + 2 := by
  obtain ⟨types, data⟩ := c
  cases tok with
  | delim d =>
      cases d <;>
        simp only [tokenDispatch, outputStart, outputEnd, Prod.mk.injEq] at h
      case objOpen =>
          obtain ⟨-, h2, h3⟩ := h
          subst h2; subst h3
          refine ⟨rfl, ?_⟩
          simp only [dBit, List.length_cons]
          omega
      case arrOpen =>
          obtain ⟨-, h2, h3⟩ := h
          subst h2; subst h3
          refine ⟨rfl, ?_⟩
          simp only [dBit, List.length_cons]
          omega
      case objClose =>
          match types, h with
          | .typObject :: rest, h =>
              simp only [outputEnd, Prod.mk.injEq] at h
              obtain ⟨-, h2, h3⟩ := h
              subst h2; subst h3
              refine ⟨rfl, ?_⟩
              simp only [dBit, List.length_cons]
              omega
          | [], h => simp at h
          | .typArray :: rest, h => simp at h
          | .typBool :: rest, h => simp at h
          | .typNumber :: rest, h => simp at h
          | .typString :: rest, h => simp at h
          | .typNull :: rest, h => simp at h
      case arrClose =>
          match types, h with
          | .typArray :: rest, h =>
              simp only [outputEnd, Prod.mk.injEq] at h
              obtain ⟨-, h2, h3⟩ := h
              subst h2; subst h3
              refine ⟨rfl, ?_⟩
              simp only [dBit, List.length_cons]
              omega
          | [], h => simp at h
          | .typObject :: rest, h => simp at h
          | .typBool :: rest, h => simp at h
          | .typNumber :: rest, h => simp at h
          | .typString :: rest, h => simp at h
          | .typNull :: rest, h => simp at h
  | bool b =>
      simp only [tokenDispatch, outputType, outputStart, Prod.mk.injEq] at h
      obtain ⟨-, h2, h3⟩ := h
      subst h2; subst h3
      refine ⟨rfl, ?_⟩
      simp only [dBit, List.length_cons]
      omega
  | num s =>
      simp only [tokenDispatch, outputType, outputStart, Prod.mk.injEq] at h
      obtain ⟨-, h2, h3⟩ := h
      subst h2; subst h3
      refine ⟨rfl, ?_⟩
      simp only [dBit, List.length_cons]
      omega
  | str s =>
      simp only [tokenDispatch, outputType, outputStart, Prod.mk.injEq] at h
      obtain ⟨-, h2, h3⟩ := h
      subst h2; subst h3
      refine ⟨rfl, ?_⟩
      simp only [dBit, List.length_cons]
      omega
  | null =>
      simp only [tokenDispatch, outputType, outputStart, Prod.mk.injEq] at h
      obtain ⟨-, h2, h3⟩ := h
      subst h2; subst h3
      refine ⟨rfl, ?_⟩
      simp only [dBit, List.length_cons]
      omega
  | other =>
      simp only [tokenDispatch, Prod.mk.injEq] at h
      exact absurd h.1 (by simp)

theorem tokenPull_ok_meas (c : Converter) (src : List JToken) {t : XToken}
    {c' : Converter} {src' : List JToken}
    (h : tokenPull c src = (.ok t, c', src')) : meas c' src' < meas c src := by
  obtain ⟨types, data⟩ := c
  cases src with
  | nil =>
      simp only [tokenPull, Prod.mk.injEq] at h
      exact absurd h.1 (by simp)
  | cons tok srcRest =>
      simp only [tokenPull] at h
      have hstep :
          ∀ (k : Option String) (tk : JToken) (rest : List JToken),
            rest.length < srcRest.length + 1 →
            tokenDispatch ⟨types, data⟩ tk k rest = (.ok t, c', src') →
            meas c' src' < meas ⟨types, data⟩ (tok :: srcRest) := by
        intro k tk rest hle hd
        obtain ⟨rfl, hb⟩ := tokenDispatch_ok_src ⟨types, data⟩ tk k rest hd
        simp only [meas, List.length_cons] at hb ⊢
        omega
      cases types with
      | nil => exact hstep none tok srcRest (by omega) h
      | cons ty tailTypes =>
          cases ty with
          | typObject =>
              by_cases hclose : tok = .delim .objClose
              · rw [if_pos hclose] at h
                exact hstep none tok srcRest (by omega) h
              · rw [if_neg hclose] at h
                cases tok with
                | str key =>
                    cases srcRest with
                    | nil =>
                        simp only [Prod.mk.injEq] at h
                        exact absurd h.1 (by simp)
                    | cons tok2 srcRest2 =>
                        exact hstep (some key) tok2 srcRest2 (by simp +arith) h
                | delim d =>
                    simp only [Prod.mk.injEq] at h
                    exact absurd h.1 (by simp)
                | bool b =>
                    simp only [Prod.mk.injEq] at h
                    exact absurd h.1 (by simp)
                | num s =>
                    simp only [Prod.mk.injEq] at h
                    exact absurd h.1 (by simp)
                | null =>
                    simp only [Prod.mk.injEq] at h
                    exact absurd h.1 (by simp)
                | other =>
                    simp only [Prod.mk.injEq] at h
                    exact absurd h.1 (by simp)
          | typArray => exact hstep none tok srcRest (by omega) h
          | typBool => exact hstep none tok srcRest (by omega) h
          | typNumber => exact hstep none tok srcRest (by omega) h
          | typString => exact hstep none tok srcRest (by omega) h
          | typNull => exact hstep none tok srcRest (by omega) h

theorem token_ok_meas (c : Converter) (src : List JToken) {t : XToken}
    {c' : Converter} {src' : List JToken}
    (h : token c src = (.ok t, c', src')) : meas c' src' < meas c src := by
  obtain ⟨types, data⟩ := c
  cases data with
  | some d =>
      simp only [token, Prod.mk.injEq] at h
      obtain ⟨-, h2, h3⟩ := h
      subst h2; subst h3
      simp [meas, dBit]
  | none =>
      cases types with
      | nil => exact tokenPull_ok_meas _ _ h
      | cons ty rest =>
          cases ty with
          | typObject => exact tokenPull_ok_meas _ _ h
          | typArray => exact tokenPull_ok_meas _ _ h
          | typBool =>
              simp only [token, outputEnd, Prod.mk.injEq] at h
              obtain ⟨-, h2, h3⟩ := h
              subst h2; subst h3
              simp [meas, dBit]
          | typNumber =>
              simp only [token, outputEnd, Prod.mk.injEq] at h
              obtain ⟨-, h2, h3⟩ := h
              subst h2; subst h3
              simp [meas, dBit]
          | typString =>
              simp only [token, outputEnd, Prod.mk.injEq] at h
              obtain ⟨-, h2, h3⟩ := h
              subst h2; subst h3
              simp [meas, dBit]
          | typNull =>
              simp only [token, outputEnd, Prod.mk.injEq] at h
              obtain ⟨-, h2, h3⟩ := h
              subst h2; subst h3
              simp [meas, dBit]

set_option linter.unusedVariables false in
/-- The driving loop of `Convert` (lines 224-237), with the collected XML
tokens standing in for the calls to the sink's `EncodeToken`: an `io.EOF`
from `Token` is successful completion, any other error is propagated. -/
def convertLoop (c : Converter) (src : List JToken) :
    Except ConvErr (List XToken) :=
  match h : token c src with
  | (.ok t, c', src') => (convertLoop c' src').map (fun out => t :: out)
  | (.error e, _, _) => if e = .eof then .ok [] else .error e
termination_by meas c src
decreasing_by exact token_ok_meas c src h

/-- `Convert`: run the loop from a fresh converter. -/
def Convert (src : List JToken) : Except ConvErr (List XToken) :=
  convertLoop ⟨[], none⟩ src

theorem convertLoop_ok_step {c : Converter} {src : List JToken} {t : XToken}
    {c' : Converter} {src' : List JToken}
    (h : token c src = (.ok t, c', src')) :
    convertLoop c src = (convertLoop c' src').map (fun out => t :: out) := by
  conv_lhs => unfold convertLoop
  split
  next t2 c2 src2 heq =>
      rw [h] at heq
      simp only [Prod.mk.injEq, Except.ok.injEq] at heq
      obtain ⟨h1, h2, h3⟩ := heq
      subst h1; subst h2; subst h3
      rfl
  next e c2 src2 heq => rw [h] at heq; simp at heq

theorem convertLoop_eof_step {c : Converter} {src : List JToken}
    {c' : Converter} {src' : List JToken}
    (h : token c src = (.error .eof, c', src')) :
    convertLoop c src = .ok [] := by
  conv_lhs => unfold convertLoop
  split
  next t2 c2 src2 heq => rw [h] at heq; simp at heq
  next e c2 src2 heq =>
      rw [h] at heq
      simp only [Prod.mk.injEq, Except.error.injEq] at heq
      obtain ⟨h1, -, -⟩ := heq
      subst h1
      rfl

theorem convertLoop_err_step {c : Converter} {src : List JToken} {e : ConvErr}
    {c' : Converter} {src' : List JToken}
    (h : token c src = (.error e, c', src')) (hne : e ≠ .eof) :
    convertLoop c src = .error e := by
  conv_lhs => unfold convertLoop
  split
  next t2 c2 src2 heq => rw [h] at heq; simp at heq
  next e2 c2 src2 heq =>
      rw [h] at heq
      simp only [Prod.mk.injEq, Except.error.injEq] at heq
      obtain ⟨h1, -, -⟩ := heq
      subst h1
      rw [if_neg hne]


mutual
/-- A JSON value; its token sequence (below) characterizes the well-formed
JSON token sequences.  Numbers are carried as `json.Number` literal text. -/
inductive JVal where
  | vbool (b : Bool)
  | vnum (s : String)
  | vstr (s : String)
  | vnull
  | varr (elems : JArr)
  | vobj (members : JObj)
/-- A sequence of array elements. -/
inductive JArr where
  | anil
  | acons (v : JVal) (rest : JArr)
/-- A sequence of object members. -/
inductive JObj where
  | onil
  | ocons (key : String) (v : JVal) (rest : JObj)
end

mutual
/-- The JSON token sequence of a value, in document order. -/
def toksV : JVal → List JToken
  | .vbool b => [.bool b]
  | .vnum s => [.num s]
  | .vstr s => [.str s]
  | .vnull => [.null]
  | .varr es => .delim .arrOpen :: (toksA es ++ [.delim .arrClose])
  | .vobj ms => .delim .objOpen :: (toksO ms ++ [.delim .objClose])
/-- The token sequence of a run of array elements. -/
def toksA : JArr → List JToken
  | .anil => []
  | .acons v rest => toksV v ++ toksA rest
/-- The token sequence of a run of object members: each member is its string
key followed by its value. -/
def toksO : JObj → List JToken
  | .onil => []
  | .ocons key v rest => .str key :: (toksV v ++ toksO rest)
end

mutual
/-- The XML token sequence the converter emits for a value, given the
optional key name attached to it. -/
def xmlV : Option String → JVal → List XToken
  | k, .vbool b =>
      [.start "boolean" k, .charData (if b then cTrue else cFalse),
        .endElement "boolean"]
  | k, .vnum s => [.start "number" k, .charData s, .endElement "number"]
  | k, .vstr s => [.start "string" k, .charData s, .endElement "string"]
  | k, .vnull => [.start "null" k, .endElement "null"]
  | k, .varr es => .start "array" k :: (xmlA es ++ [.endElement "array"])
  | k, .vobj ms => .start "object" k :: (xmlO ms ++ [.endElement "object"])
/-- The XML tokens of a run of array elements: no `name` attributes. -/
def xmlA : JArr → List XToken
  | .anil => []
  | .acons v rest => xmlV none v ++ xmlA rest
/-- The XML tokens of a run of object members: each value's element carries
its key as the `name` attribute. -/
def xmlO : JObj → List XToken
  | .onil => []
  | .ocons key v rest => xmlV (some key) v ++ xmlO rest
end

/-- The key tokens preceding a value in the source: none at top level or in
an array, the member's string key inside an object. -/
def keyToks : Option String → List JToken
  | none => []
  | some key => [.str key]

/-- The stack and key configurations in which a value's first token is
pulled: top level with no key, array element with no key, object member
with its key. -/
inductive EntryOk : List Ttype → Option String → Prop where
  | top : EntryOk [] none
  | arr (s : List Ttype) : EntryOk (.typArray :: s) none
  | obj (s : List Ttype) (key : String) : EntryOk (.typObject :: s) (some key)

theorem token_entry (s : List Ttype) (k : Option String) (tok : JToken)
    (more : List JToken) (hk : EntryOk s k) :
    token ⟨s, none⟩ (keyToks k ++ tok :: more) =
      tokenDispatch ⟨s, none⟩ tok k more := by
  cases hk with
  | top => rfl
  | arr s2 => rfl
  | obj s2 key => rfl

mutual
theorem runV (v : JVal) (s : List Ttype) (k : Option String) (rest : List JToken)
    (hk : EntryOk s k) :
    convertLoop ⟨s, none⟩ (keyToks k ++ (toksV v ++ rest)) =
      (convertLoop ⟨s, none⟩ rest).map (fun out => xmlV k v ++ out) := by
  cases v with
  | vbool b =>
      simp only [toksV, xmlV, List.cons_append, List.nil_append]
      rw [convertLoop_ok_step ((token_entry s k (.bool b) rest hk).trans
            (show tokenDispatch ⟨s, none⟩ (.bool b) k rest =
              (.ok (.start "boolean" k), ⟨.typBool :: s,
                some (if b then cTrue else cFalse)⟩, rest) from rfl)),
          convertLoop_ok_step (show token ⟨.typBool :: s,
              some (if b then cTrue else cFalse)⟩ rest =
            (.ok (.charData (if b then cTrue else cFalse)),
              ⟨.typBool :: s, none⟩, rest) from rfl),
          convertLoop_ok_step (show token ⟨.typBool :: s, none⟩ rest =
            (.ok (.endElement "boolean"), ⟨s, none⟩, rest) from rfl)]
      cases hx : convertLoop ⟨s, none⟩ rest <;> rfl
  | vnum t =>
      simp only [toksV, xmlV, List.cons_append, List.nil_append]
      rw [convertLoop_ok_step ((token_entry s k (.num t) rest hk).trans
            (show tokenDispatch ⟨s, none⟩ (.num t) k rest =
              (.ok (.start "number" k), ⟨.typNumber :: s, some t⟩, rest) from rfl)),
          convertLoop_ok_step (show token ⟨.typNumber :: s, some t⟩ rest =
            (.ok (.charData t), ⟨.typNumber :: s, none⟩, rest) from rfl),
          convertLoop_ok_step (show token ⟨.typNumber :: s, none⟩ rest =
            (.ok (.endElement "number"), ⟨s, none⟩, rest) from rfl)]
      cases hx : convertLoop ⟨s, none⟩ rest <;> rfl
  | vstr t =>
      simp only [toksV, xmlV, List.cons_append, List.nil_append]
      rw [convertLoop_ok_step ((token_entry s k (.str t) rest hk).trans
            (show tokenDispatch ⟨s, none⟩ (.str t) k rest =
              (.ok (.start "string" k), ⟨.typString :: s, some t⟩, rest) from rfl)),
          convertLoop_ok_step (show token ⟨.typString :: s, some t⟩ rest =
            (.ok (.charData t), ⟨.typString :: s, none⟩, rest) from rfl),
          convertLoop_ok_step (show token ⟨.typString :: s, none⟩ rest =
            (.ok (.endElement "string"), ⟨s, none⟩, rest) from rfl)]
      cases hx : convertLoop ⟨s, none⟩ rest <;> rfl
  | vnull =>
      simp only [toksV, xmlV, List.cons_append, List.nil_append]
      rw [convertLoop_ok_step ((token_entry s k .null rest hk).trans
            (show tokenDispatch ⟨s, none⟩ .null k rest =
              (.ok (.start "null" k), ⟨.typNull :: s, none⟩, rest) from rfl)),
          convertLoop_ok_step (show token ⟨.typNull :: s, none⟩ rest =
            (.ok (.endElement "null"), ⟨s, none⟩, rest) from rfl)]
      cases hx : convertLoop ⟨s, none⟩ rest <;> rfl
  | varr es =>
      simp only [toksV, xmlV, List.cons_append, List.append_assoc,
        List.singleton_append, List.nil_append]
      rw [convertLoop_ok_step ((token_entry s k (.delim .arrOpen)
            (toksA es ++ .delim .arrClose :: rest) hk).trans
            (show tokenDispatch ⟨s, none⟩ (.delim .arrOpen) k
                (toksA es ++ .delim .arrClose :: rest) =
              (.ok (.start "array" k), ⟨.typArray :: s, none⟩,
                toksA es ++ .delim .arrClose :: rest) from rfl)),
          runA es s (.delim .arrClose :: rest),
          convertLoop_ok_step (show token ⟨.typArray :: s, none⟩
              (.delim .arrClose :: rest) =
            (.ok (.endElement "array"), ⟨s, none⟩, rest) from rfl)]
      cases hx : convertLoop ⟨s, none⟩ rest <;> rfl
  | vobj ms =>
      simp only [toksV, xmlV, List.cons_append, List.append_assoc,
        List.singleton_append, List.nil_append]
      rw [convertLoop_ok_step ((token_entry s k (.delim .objOpen)
            (toksO ms ++ .delim .objClose :: rest) hk).trans
            (show tokenDispatch ⟨s, none⟩ (.delim .objOpen) k
                (toksO ms ++ .delim .objClose :: rest) =
              (.ok (.start "object" k), ⟨.typObject :: s, none⟩,
                toksO ms ++ .delim .objClose :: rest) from rfl)),
          runO ms s (.delim .objClose :: rest),
          convertLoop_ok_step (show token ⟨.typObject :: s, none⟩
              (.delim .objClose :: rest) =
            (.ok (.endElement "object"), ⟨s, none⟩, rest) from rfl)]
      cases hx : convertLoop ⟨s, none⟩ rest <;> rfl

theorem runA (es : JArr) (s : List Ttype) (rest : List JToken) :
    convertLoop ⟨.typArray :: s, none⟩ (toksA es ++ rest) =
      (convertLoop ⟨.typArray :: s, none⟩ rest).map (fun out => xmlA es ++ out) := by
  cases es with
  | anil =>
      simp only [toksA, xmlA, List.nil_append]
      cases hx : convertLoop ⟨.typArray :: s, none⟩ rest <;> rfl
  | acons v vs =>
      simp only [toksA, xmlA, List.append_assoc]
      have h1 := runV v (.typArray :: s) none (toksA vs ++ rest) (EntryOk.arr s)
      simp only [keyToks, List.nil_append] at h1
      rw [h1, runA vs s rest]
      cases hx : convertLoop ⟨.typArray :: s, none⟩ rest <;> rfl

theorem runO (ms : JObj) (s : List Ttype) (rest : List JToken) :
    convertLoop ⟨.typObject :: s, none⟩ (toksO ms ++ rest) =
      (convertLoop ⟨.typObject :: s, none⟩ rest).map (fun out => xmlO ms ++ out) := by
  cases ms with
  | onil =>
      simp only [toksO, xmlO, List.nil_append]
      cases hx : convertLoop ⟨.typObject :: s, none⟩ rest <;> rfl
  | ocons key v ms2 =>
      simp only [toksO, xmlO, List.cons_append, List.append_assoc]
      have h1 := runV v (.typObject :: s) (some key) (toksO ms2 ++ rest)
        (EntryOk.obj s key)
      simp only [keyToks, List.singleton_append] at h1
      rw [h1, runO ms2 s rest]
      cases hx : convertLoop ⟨.typObject :: s, none⟩ rest <;> rfl
end

/-- Full functional correctness of the driving loop on well-formed input:
converting the token sequence of any JSON value succeeds and emits exactly
the expected XML token sequence. -/
theorem convert_correct (v : JVal) : Convert (toksV v) = .ok (xmlV none v) := by
  have h := runV v [] none [] EntryOk.top
  simp only [keyToks, List.nil_append, List.append_nil] at h
  have hend : convertLoop ⟨[], none⟩ ([] : List JToken) = .ok [] :=
    convertLoop_eof_step (show token ⟨[], none⟩ [] =
      (.error .eof, ⟨[], none⟩, []) from rfl)
  rw [hend] at h
  rw [Convert, h]
  simp [Except.map]

/-- Run an XML token list against a stack of currently-open element names:
a start-element pushes its name, char-data changes nothing, and an
end-element must match the innermost open name, which it pops.  `none`
signals a LIFO violation. -/
def checkNest : List String → List XToken → Option (List String)
  | stk, [] => some stk
  | stk, .start n _ :: ts => checkNest (n :: stk) ts
  | stk, .charData _ :: ts => checkNest stk ts
  | stk, .endElement n :: ts =>
      match stk with
      | m :: stk2 => if n = m then checkNest stk2 ts else none
      | [] => none

/-- Number of start-element tokens in a list. -/
def countStarts : List XToken → Nat
  | [] => 0
  | .start _ _ :: ts => countStarts ts + 1
  | .charData _ :: ts => countStarts ts
  | .endElement _ :: ts => countStarts ts

/-- Number of end-element tokens in a list. -/
def countEnds : List XToken → Nat
  | [] => 0
  | .start _ _ :: ts => countEnds ts
  | .charData _ :: ts => countEnds ts
  | .endElement _ :: ts => countEnds ts + 1

theorem countStarts_append (xs ys : List XToken) :
    countStarts (xs ++ ys) = countStarts xs + countStarts ys := by
  induction xs with
  | nil => simp [countStarts]
  | cons x xs ih =>
      cases x <;> simp only [List.cons_append, countStarts, List.append_eq, ih] <;> omega

theorem countEnds_append (xs ys : List XToken) :
    countEnds (xs ++ ys) = countEnds xs + countEnds ys := by
  induction xs with
  | nil => simp [countEnds]
  | cons x xs ih =>
      cases x <;> simp only [List.cons_append, countEnds, List.append_eq, ih] <;> omega

theorem checkNest_append (xs ys : List XToken) :
    ∀ stk, checkNest stk (xs ++ ys) =
      (checkNest stk xs).bind fun stk2 => checkNest stk2 ys := by
  induction xs with
  | nil => intro stk; rfl
  | cons x xs ih =>
      intro stk
      cases x with
      | start n a =>
          simp only [List.cons_append, checkNest]
          exact ih (n :: stk)
      | charData t =>
          simp only [List.cons_append, checkNest]
          exact ih stk
      | endElement n =>
          cases stk with
          | nil => rfl
          | cons m stk2 =>
              by_cases hnm : n = m
              · simp only [List.cons_append, checkNest, if_pos hnm]
                exact ih stk2
              · simp only [List.cons_append, checkNest, if_neg hnm, Option.none_bind]

mutual
theorem nestV (v : JVal) : ∀ (k : Option String) (stk : List String),
    checkNest stk (xmlV k v) = some stk := by
  cases v with
  | vbool b => intro k stk; rfl
  | vnum t => intro k stk; rfl
  | vstr t => intro k stk; rfl
  | vnull => intro k stk; rfl
  | varr es =>
      intro k stk
      simp only [xmlV, checkNest, checkNest_append, nestA es]
      rfl
  | vobj ms =>
      intro k stk
      simp only [xmlV, checkNest, checkNest_append, nestO ms]
      rfl

theorem nestA (es : JArr) : ∀ stk : List String,
    checkNest stk (xmlA es) = some stk := by
  cases es with
  | anil => intro stk; rfl
  | acons v vs =>
      intro stk
      simp only [xmlA, checkNest_append, nestV v, Option.some_bind, nestA vs]

theorem nestO (ms : JObj) : ∀ stk : List String,
    checkNest stk (xmlO ms) = some stk := by
  cases ms with
  | onil => intro stk; rfl
  | ocons key v ms2 =>
      intro stk
      simp only [xmlO, checkNest_append, nestV v, Option.some_bind, nestO ms2]
end

mutual
theorem countV (v : JVal) : ∀ k : Option String,
    countStarts (xmlV k v) = countEnds (xmlV k v) := by
  cases v with
  | vbool b => intro k; rfl
  | vnum t => intro k; rfl
  | vstr t => intro k; rfl
  | vnull => intro k; rfl
  | varr es =>
      intro k
      have := countA es
      simp only [xmlV, countStarts, countEnds, countStarts_append, countEnds_append]
      omega
  | vobj ms =>
      intro k
      have := countO ms
      simp only [xmlV, countStarts, countEnds, countStarts_append, countEnds_append]
      omega

theorem countA (es : JArr) : countStarts (xmlA es) = countEnds (xmlA es) := by
  cases es with
  | anil => rfl
  | acons v vs =>
      have h1 := countV v none
      have h2 := countA vs
      simp only [xmlA, countStarts_append, countEnds_append]
      omega

theorem countO (ms : JObj) : countStarts (xmlO ms) = countEnds (xmlO ms) := by
  cases ms with
  | onil => rfl
  | ocons key v ms2 =>
      have h1 := countV v (some key)
      have h2 := countO ms2
      simp only [xmlO, countStarts_append, countEnds_append]
      omega
end

/-- Whether a `json.Token` is a Go `string` (the type assertion
`token.(string)` in the key check; `json.Number` is a distinct type and
fails the assertion). -/
def isString : JToken → Bool
  | .str _ => true
  | _ => false

/-- Supporting fact for the `json.Number` half of the number-formatting
behaviour: a pre-tokenized numeric literal is passed through verbatim — the
call pulling it emits the `number` start-element and stores the literal text
unchanged in the pending slot, and the following call emits exactly that
text as char-data. -/
theorem number_literal_passthrough (s : List Ttype) (k : Option String)
    (lit : String) (rest : List JToken) (hk : EntryOk s k) :
    token ⟨s, none⟩ (keyToks k ++ .num lit :: rest) =
        (.ok (.start "number" k), ⟨.typNumber :: s, some lit⟩, rest) ∧
      token ⟨.typNumber :: s, some lit⟩ rest =
        (.ok (.charData lit), ⟨.typNumber :: s, none⟩, rest) :=
  ⟨(token_entry s k (.num lit) rest hk).trans rfl, rfl⟩

/-- C1 counterexample: with an object open on top of the stack, pulling an
array-close token (in key position) makes `Token` fail with
`ErrInvalidKey`, not `ErrInvalidToken` as the claim states — the key check
runs first and the delimiter is not a string. -/
theorem claim_C1_counterexample :
    token ⟨[Ttype.typObject], none⟩ [JToken.delim JDelim.arrClose] =
        (.error .invalidKey, ⟨[Ttype.typObject], none⟩, []) ∧
      ConvErr.invalidKey ≠ ConvErr.invalidToken :=
  ⟨rfl, by decide⟩

/-- C1 (amended): with an object open on top of the stack, an array-close
token always makes `Token` fail without emitting any XML token: with
`ErrInvalidKey` when it is pulled in key position, and with
`ErrInvalidToken` when it is the re-pulled value after a string key. -/
theorem claim_C1 (tailTypes : List Ttype) (key : String) (src : List JToken) :
    (token ⟨.typObject :: tailTypes, none⟩ (.delim .arrClose :: src)).1 =
        .error .invalidKey ∧
      (token ⟨.typObject :: tailTypes, none⟩
          (.str key :: .delim .arrClose :: src)).1 = .error .invalidToken :=
  ⟨rfl, rfl⟩

/-- C3 counterexample: with an object open on top of the stack, after the
string key "k" the re-pulled object-close token — which is not a legitimate
value start — does NOT make `Token` fail: it emits the object's end-element
(and silently discards the key), contradicting the claim. -/
theorem claim_C3_counterexample :
    token ⟨[Ttype.typObject], none⟩
        [JToken.str "k", JToken.delim JDelim.objClose] =
      (.ok (.endElement "object"), ⟨[], none⟩, []) :=
  rfl

/-- C3 (amended): with an object open on top of the stack, when the
re-pulled token after a string key is not a legitimate value start, `Token`
fails with `ErrInvalidToken` if it is the array-close delimiter and with
`ErrUnknownToken` if it is an unrecognized token shape — except that the
object-close delimiter is accepted: it emits the object's end-element and
discards the pending key. -/
theorem claim_C3 (tailTypes : List Ttype) (key : String) (src : List JToken) :
    (token ⟨.typObject :: tailTypes, none⟩
        (.str key :: .delim .arrClose :: src)).1 = .error .invalidToken ∧
      (token ⟨.typObject :: tailTypes, none⟩ (.str key :: .other :: src)).1 =
        .error .unknownToken ∧
      token ⟨.typObject :: tailTypes, none⟩
          (.str key :: .delim .objClose :: src) =
        (.ok (.endElement "object"), ⟨tailTypes, none⟩, src) :=
  ⟨rfl, rfl, rfl⟩

/-- C8: with an object open on top of the stack, a pulled token that is not
the object-close delimiter and is not a string makes `Token` fail with
`ErrInvalidKey`. -/
theorem claim_C8 (tailTypes : List Ttype) (tok : JToken) (src : List JToken)
    (hne : tok ≠ .delim .objClose) (hns : isString tok = false) :
    (token ⟨.typObject :: tailTypes, none⟩ (tok :: src)).1 =
      .error .invalidKey := by
  cases tok with
  | str s2 => simp [isString] at hns
  | delim d =>
      cases d with
      | objClose => exact absurd rfl hne
      | objOpen => rfl
      | arrOpen => rfl
      | arrClose => rfl
  | bool b => rfl
  | num s2 => rfl
  | null => rfl
  | other => rfl

theorem claim_C8_witness :
    (token ⟨[Ttype.typObject], none⟩ [JToken.bool true]).1 =
      .error .invalidKey :=
  claim_C8 [] (.bool true) [] (by decide) rfl

/-- C4: whenever the pending char-data slot holds text, the next call to
`Token` emits exactly that text as a char-data token, clears the slot, and
does not pull from the source; consequently any call that leaves the slot
set (a scalar's start-element) is immediately followed by its char-data on
the very next call. -/
theorem claim_C4 :
    (∀ (types : List Ttype) (d : String) (src : List JToken),
        token ⟨types, some d⟩ src = (.ok (.charData d), ⟨types, none⟩, src)) ∧
      ∀ (c : Converter) (src : List JToken) (t : XToken) (c' : Converter)
        (src' : List JToken) (d : String),
        token c src = (.ok t, c', src') → c'.data = some d →
        token c' src' = (.ok (.charData d), ⟨c'.types, none⟩, src') := by
  refine ⟨fun types d src => rfl, ?_⟩
  intro c src t c' src' d hok hd
  obtain ⟨types2, data2⟩ := c'
  simp only at hd
  subst hd
  rfl

theorem claim_C4_witness :
    token ⟨[Ttype.typBool], some "true"⟩ [] =
      (.ok (.charData "true"), ⟨[Ttype.typBool], none⟩, []) :=
  claim_C4.2 ⟨[], none⟩ [JToken.bool true] (XToken.start "boolean" none)
    ⟨[Ttype.typBool], some "true"⟩ [] "true" rfl rfl

/-- C5: converting the lone JSON value null produces exactly two XML
tokens — the start-element named null and its matching end-element — with
zero char-data tokens between them; the pending char-data slot is never
populated (it is still empty both after the start-emitting call and after
the end-emitting call). -/
theorem claim_C5 :
    Convert [JToken.null] =
        .ok [XToken.start "null" none, XToken.endElement "null"] ∧
      token ⟨[], none⟩ [JToken.null] =
        (.ok (.start "null" none), ⟨[.typNull], none⟩, []) ∧
      token ⟨[.typNull], none⟩ [] =
        (.ok (.endElement "null"), ⟨[], none⟩, []) := by
  refine ⟨?_, rfl, rfl⟩
  show convertLoop ⟨[], none⟩ [JToken.null] =
    .ok [XToken.start "null" none, XToken.endElement "null"]
  rw [convertLoop_ok_step (show token ⟨[], none⟩ [JToken.null] =
        (.ok (.start "null" none), ⟨[.typNull], none⟩, []) from rfl),
      convertLoop_ok_step (show token ⟨[Ttype.typNull], none⟩ [] =
        (.ok (.endElement "null"), ⟨[], none⟩, []) from rfl),
      convertLoop_eof_step (show token ⟨[], none⟩ ([] : List JToken) =
        (.error .eof, ⟨[], none⟩, []) from rfl)]
  rfl

/-- C2: for every well-formed JSON token sequence driven to end-of-stream,
the number of start-element tokens emitted equals the number of end-element
tokens emitted, and the emitted sequence nests in strict LIFO order: every
end-element's name matches the most recently unmatched start-element's
name, and no element is left open. -/
theorem claim_C2 (v : JVal) (out : List XToken)
    (h : Convert (toksV v) = .ok out) :
    countStarts out = countEnds out ∧ checkNest [] out = some [] := by
  rw [convert_correct v, Except.ok.injEq] at h
  subst h
  exact ⟨countV v none, nestV v none []⟩

theorem claim_C2_witness :
    countStarts [XToken.start "null" none, XToken.endElement "null"] =
        countEnds [XToken.start "null" none, XToken.endElement "null"] ∧
      checkNest [] [XToken.start "null" none, XToken.endElement "null"] =
        some [] :=
  claim_C2 JVal.vnull [XToken.start "null" none, XToken.endElement "null"]
    (convert_correct JVal.vnull)

theorem tokenDispatch_start_attr (c : Converter) (tok : JToken)
    (keyName : Option String) (src : List JToken) {t : XToken}
    {c' : Converter} {src' : List JToken}
    (h : tokenDispatch c tok keyName src = (.ok t, c', src'))
    (n : String) (a : Option String) (ht : t = .start n a) : a = keyName := by
  subst ht
  obtain ⟨types, data⟩ := c
  cases tok with
  | delim d =>
      cases d
      case objOpen =>
          simp only [tokenDispatch, outputStart, Prod.mk.injEq, Except.ok.injEq,
            XToken.start.injEq] at h
          exact h.1.2.symm
      case arrOpen =>
          simp only [tokenDispatch, outputStart, Prod.mk.injEq, Except.ok.injEq,
            XToken.start.injEq] at h
          exact h.1.2.symm
      case objClose =>
          match types, h with
          | .typObject :: rest, h => simp [tokenDispatch, outputEnd] at h
          | [], h => simp [tokenDispatch] at h
          | .typArray :: rest, h => simp [tokenDispatch] at h
          | .typBool :: rest, h => simp [tokenDispatch] at h
          | .typNumber :: rest, h => simp [tokenDispatch] at h
          | .typString :: rest, h => simp [tokenDispatch] at h
          | .typNull :: rest, h => simp [tokenDispatch] at h
      case arrClose =>
          match types, h with
          | .typArray :: rest, h => simp [tokenDispatch, outputEnd] at h
          | [], h => simp [tokenDispatch] at h
          | .typObject :: rest, h => simp [tokenDispatch] at h
          | .typBool :: rest, h => simp [tokenDispatch] at h
          | .typNumber :: rest, h => simp [tokenDispatch] at h
          | .typString :: rest, h => simp [tokenDispatch] at h
          | .typNull :: rest, h => simp [tokenDispatch] at h
  | bool b =>
      simp only [tokenDispatch, outputType, outputStart, Prod.mk.injEq,
        Except.ok.injEq, XToken.start.injEq] at h
      exact h.1.2.symm
  | num s2 =>
      simp only [tokenDispatch, outputType, outputStart, Prod.mk.injEq,
        Except.ok.injEq, XToken.start.injEq] at h
      exact h.1.2.symm
  | str s2 =>
      simp only [tokenDispatch, outputType, outputStart, Prod.mk.injEq,
        Except.ok.injEq, XToken.start.injEq] at h
      exact h.1.2.symm
  | null =>
      simp only [tokenDispatch, outputType, outputStart, Prod.mk.injEq,
        Except.ok.injEq, XToken.start.injEq] at h
      exact h.1.2.symm
  | other => simp [tokenDispatch] at h

/-- C6: an emitted start-element carries a `name` attribute if and only if a
pending key name was set when it was produced.  Part one: in any state whose
stack top is not an open object (top level, array member, or the state
before a scalar close), a returned start-element has no attribute.  Part
two: when the stack top is an open object and a string key is pulled, a
returned start-element carries exactly that key string, verbatim. -/
theorem claim_C6 :
    (∀ (types : List Ttype) (src : List JToken) (t : XToken) (c' : Converter)
        (src' : List JToken) (n : String) (a : Option String),
        types.head? ≠ some .typObject →
        token ⟨types, none⟩ src = (.ok t, c', src') →
        t = .start n a → a = none) ∧
      ∀ (tailTypes : List Ttype) (key : String) (more src' : List JToken)
        (t : XToken) (c' : Converter) (n : String) (a : Option String),
        token ⟨.typObject :: tailTypes, none⟩ (.str key :: more) =
          (.ok t, c', src') →
        t = .start n a → a = some key := by
  constructor
  · intro types src t c' src' n a hhead hok ht
    cases types with
    | nil =>
        cases src with
        | nil =>
            have hok2 : ((.error .eof, ⟨[], none⟩, []) :
                Except ConvErr XToken × Converter × List JToken) =
                (.ok t, c', src') := hok
            simp at hok2
        | cons tok more =>
            exact tokenDispatch_start_attr ⟨[], none⟩ tok none more hok n a ht
    | cons ty tailTypes =>
        cases ty with
        | typObject => exact absurd rfl hhead
        | typArray =>
            cases src with
            | nil =>
                have hok2 : ((.error .eof, ⟨Ttype.typArray :: tailTypes, none⟩,
                    []) : Except ConvErr XToken × Converter × List JToken) =
                    (.ok t, c', src') := hok
                simp at hok2
            | cons tok more =>
                exact tokenDispatch_start_attr ⟨.typArray :: tailTypes, none⟩
                  tok none more hok n a ht
        | typBool =>
            subst ht
            have hok2 : ((.ok (XToken.endElement "boolean"),
                ⟨tailTypes, none⟩, src) :
                Except ConvErr XToken × Converter × List JToken) =
                (.ok (.start n a), c', src') := hok
            simp at hok2
        | typNumber =>
            subst ht
            have hok2 : ((.ok (XToken.endElement "number"),
                ⟨tailTypes, none⟩, src) :
                Except ConvErr XToken × Converter × List JToken) =
                (.ok (.start n a), c', src') := hok
            simp at hok2
        | typString =>
            subst ht
            have hok2 : ((.ok (XToken.endElement "string"),
                ⟨tailTypes, none⟩, src) :
                Except ConvErr XToken × Converter × List JToken) =
                (.ok (.start n a), c', src') := hok
            simp at hok2
        | typNull =>
            subst ht
            have hok2 : ((.ok (XToken.endElement "null"),
                ⟨tailTypes, none⟩, src) :
                Except ConvErr XToken × Converter × List JToken) =
                (.ok (.start n a), c', src') := hok
            simp at hok2
  · intro tailTypes key more src' t c' n a hok ht
    cases more with
    | nil =>
        have hok2 : ((.error .eof, ⟨Ttype.typObject :: tailTypes, none⟩, []) :
            Except ConvErr XToken × Converter × List JToken) =
            (.ok t, c', src') := hok
        simp at hok2
    | cons tok2 more2 =>
        exact tokenDispatch_start_attr ⟨.typObject :: tailTypes, none⟩ tok2
          (some key) more2 hok n a ht

theorem claim_C6_witness :
    (none : Option String) = none ∧ (some "k" : Option String) = some "k" :=
  ⟨claim_C6.1 [] [JToken.bool true] (XToken.start "boolean" none)
      ⟨[Ttype.typBool], some cTrue⟩ [] "boolean" none (by decide) rfl rfl,
    claim_C6.2 [] "k" [JToken.null] [] (XToken.start "null" (some "k"))
      ⟨[Ttype.typNull, Ttype.typObject], none⟩ "null" (some "k") rfl rfl⟩

theorem drain_none (types : List Ttype) :
    ∃ out, convertLoop ⟨types, none⟩ ([] : List JToken) = .ok out := by
  induction types with
  | nil =>
      exact ⟨[], convertLoop_eof_step (show token ⟨[], none⟩ [] =
        (.error .eof, ⟨[], none⟩, []) from rfl)⟩
  | cons ty tail ih =>
      cases ty with
      | typObject =>
          exact ⟨[], convertLoop_eof_step (show token
            ⟨.typObject :: tail, none⟩ [] =
            (.error .eof, ⟨.typObject :: tail, none⟩, []) from rfl)⟩
      | typArray =>
          exact ⟨[], convertLoop_eof_step (show token
            ⟨.typArray :: tail, none⟩ [] =
            (.error .eof, ⟨.typArray :: tail, none⟩, []) from rfl)⟩
      | typBool =>
          obtain ⟨out, hout⟩ := ih
          refine ⟨.endElement "boolean" :: out, ?_⟩
          rw [convertLoop_ok_step (show token ⟨.typBool :: tail, none⟩ [] =
            (.ok (.endElement "boolean"), ⟨tail, none⟩, []) from rfl), hout]
          rfl
      | typNumber =>
          obtain ⟨out, hout⟩ := ih
          refine ⟨.endElement "number" :: out, ?_⟩
          rw [convertLoop_ok_step (show token ⟨.typNumber :: tail, none⟩ [] =
            (.ok (.endElement "number"), ⟨tail, none⟩, []) from rfl), hout]
          rfl
      | typString =>
          obtain ⟨out, hout⟩ := ih
          refine ⟨.endElement "string" :: out, ?_⟩
          rw [convertLoop_ok_step (show token ⟨.typString :: tail, none⟩ [] =
            (.ok (.endElement "string"), ⟨tail, none⟩, []) from rfl), hout]
          rfl
      | typNull =>
          obtain ⟨out, hout⟩ := ih
          refine ⟨.endElement "null" :: out, ?_⟩
          rw [convertLoop_ok_step (show token ⟨.typNull :: tail, none⟩ [] =
            (.ok (.endElement "null"), ⟨tail, none⟩, []) from rfl), hout]
          rfl

/-- C9: the driving loop treats `io.EOF` as successful completion with no
check that the stack is empty: from any converter state, an exhausted source
yields success, and in particular converting the truncated sequence holding
just an object-open (an unclosed container) returns success. -/
theorem claim_C9 :
    (∀ (types : List Ttype) (data : Option String),
        ∃ out, convertLoop ⟨types, data⟩ ([] : List JToken) = .ok out) ∧
      Convert [JToken.delim JDelim.objOpen] =
        .ok [XToken.start "object" none] := by
  constructor
  · intro types data
    cases data with
    | none => exact drain_none types
    | some d =>
        obtain ⟨out, hout⟩ := drain_none types
        refine ⟨.charData d :: out, ?_⟩
        rw [convertLoop_ok_step (show token ⟨types, some d⟩ [] =
          (.ok (.charData d), ⟨types, none⟩, []) from rfl), hout]
        rfl
  · show convertLoop ⟨[], none⟩ [JToken.delim JDelim.objOpen] =
      .ok [XToken.start "object" none]
    rw [convertLoop_ok_step (show token ⟨[], none⟩
          [JToken.delim JDelim.objOpen] =
          (.ok (.start "object" none), ⟨[.typObject], none⟩, []) from rfl),
        convertLoop_eof_step (show token ⟨[Ttype.typObject], none⟩ [] =
          (.error .eof, ⟨[Ttype.typObject], none⟩, []) from rfl)]
    rfl

theorem tokenDispatch_err (c : Converter) (tok : JToken)
    (keyName : Option String) (src : List JToken) {e : ConvErr}
    {c' : Converter} {src' : List JToken}
    (h : tokenDispatch c tok keyName src = (.error e, c', src')) : c' = c := by
  obtain ⟨types, data⟩ := c
  cases tok with
  | delim d =>
      cases d
      case objOpen => simp [tokenDispatch, outputStart] at h
      case arrOpen => simp [tokenDispatch, outputStart] at h
      case objClose =>
          match types, h with
          | .typObject :: rest, h => simp [tokenDispatch, outputEnd] at h
          | [], h =>
              have h2 : ((.error .invalidToken,
                  (⟨[], data⟩ : Converter), src) :
                  Except ConvErr XToken × Converter × List JToken) =
                  (.error e, c', src') := h
              simp only [Prod.mk.injEq] at h2
              exact h2.2.1.symm
          | .typArray :: rest, h =>
              have h2 : ((.error .invalidToken,
                  (⟨Ttype.typArray :: rest, data⟩ : Converter), src) :
                  Except ConvErr XToken × Converter × List JToken) =
                  (.error e, c', src') := h
              simp only [Prod.mk.injEq] at h2
              exact h2.2.1.symm
          | .typBool :: rest, h =>
              have h2 : ((.error .invalidToken,
                  (⟨Ttype.typBool :: rest, data⟩ : Converter), src) :
                  Except ConvErr XToken × Converter × List JToken) =
                  (.error e, c', src') := h
              simp only [Prod.mk.injEq] at h2
              exact h2.2.1.symm
          | .typNumber :: rest, h =>
              have h2 : ((.error .invalidToken,
                  (⟨Ttype.typNumber :: rest, data⟩ : Converter), src) :
                  Except ConvErr XToken × Converter × List JToken) =
                  (.error e, c', src') := h
              simp only [Prod.mk.injEq] at h2
              exact h2.2.1.symm
          | .typString :: rest, h =>
              have h2 : ((.error .invalidToken,
                  (⟨Ttype.typString :: rest, data⟩ : Converter), src) :
                  Except ConvErr XToken × Converter × List JToken) =
                  (.error e, c', src') := h
              simp only [Prod.mk.injEq] at h2
              exact h2.2.1.symm
          | .typNull :: rest, h =>
              have h2 : ((.error .invalidToken,
                  (⟨Ttype.typNull :: rest, data⟩ : Converter), src) :
                  Except ConvErr XToken × Converter × List JToken) =
                  (.error e, c', src') := h
              simp only [Prod.mk.injEq] at h2
              exact h2.2.1.symm
      case arrClose =>
          match types, h with
          | .typArray :: rest, h => simp [tokenDispatch, outputEnd] at h
          | [], h =>
              have h2 : ((.error .invalidToken,
                  (⟨[], data⟩ : Converter), src) :
                  Except ConvErr XToken × Converter × List JToken) =
                  (.error e, c', src') := h
              simp only [Prod.mk.injEq] at h2
              exact h2.2.1.symm
          | .typObject :: rest, h =>
              have h2 : ((.error .invalidToken,
                  (⟨Ttype.typObject :: rest, data⟩ : Converter), src) :
                  Except ConvErr XToken × Converter × List JToken) =
                  (.error e, c', src') := h
              simp only [Prod.mk.injEq] at h2
              exact h2.2.1.symm
          | .typBool :: rest, h =>
              have h2 : ((.error .invalidToken,
                  (⟨Ttype.typBool :: rest, data⟩ : Converter), src) :
                  Except ConvErr XToken × Converter × List JToken) =
                  (.error e, c', src') := h
              simp only [Prod.mk.injEq] at h2
              exact h2.2.1.symm
          | .typNumber :: rest, h =>
              have h2 : ((.error .invalidToken,
                  (⟨Ttype.typNumber :: rest, data⟩ : Converter), src) :
                  Except ConvErr XToken × Converter × List JToken) =
                  (.error e, c', src') := h
              simp only [Prod.mk.injEq] at h2
              exact h2.2.1.symm
          | .typString :: rest, h =>
              have h2 : ((.error .invalidToken,
                  (⟨Ttype.typString :: rest, data⟩ : Converter), src) :
                  Except ConvErr XToken × Converter × List JToken) =
                  (.error e, c', src') := h
              simp only [Prod.mk.injEq] at h2
              exact h2.2.1.symm
          | .typNull :: rest, h =>
              have h2 : ((.error .invalidToken,
                  (⟨Ttype.typNull :: rest, data⟩ : Converter), src) :
                  Except ConvErr XToken × Converter × List JToken) =
                  (.error e, c', src') := h
              simp only [Prod.mk.injEq] at h2
              exact h2.2.1.symm
  | bool b => simp [tokenDispatch, outputType, outputStart] at h
  | num s2 => simp [tokenDispatch, outputType, outputStart] at h
  | str s2 => simp [tokenDispatch, outputType, outputStart] at h
  | null => simp [tokenDispatch, outputType, outputStart] at h
  | other =>
      have h2 : ((.error .unknownToken, (⟨types, data⟩ : Converter), src) :
          Except ConvErr XToken × Converter × List JToken) =
          (.error e, c', src') := h
      simp only [Prod.mk.injEq] at h2
      exact h2.2.1.symm

theorem tokenPull_err (c : Converter) (src : List JToken) {e : ConvErr}
    {c' : Converter} {src' : List JToken}
    (h : tokenPull c src = (.error e, c', src')) : c' = c := by
  obtain ⟨types, data⟩ := c
  cases src with
  | nil =>
      simp only [tokenPull, Prod.mk.injEq] at h
      exact h.2.1.symm
  | cons tok srcRest =>
      cases types with
      | nil => exact tokenDispatch_err ⟨[], data⟩ tok none srcRest h
      | cons ty tailTypes =>
          cases ty with
          | typObject =>
              by_cases hclose : tok = .delim .objClose
              · subst hclose
                exact tokenDispatch_err ⟨.typObject :: tailTypes, data⟩
                  (.delim .objClose) none srcRest h
              · cases tok with
                | str key =>
                    cases srcRest with
                    | nil =>
                        have h2 : ((.error .eof,
                            (⟨Ttype.typObject :: tailTypes, data⟩ : Converter),
                            ([] : List JToken)) :
                            Except ConvErr XToken × Converter × List JToken) =
                            (.error e, c', src') := h
                        simp only [Prod.mk.injEq] at h2
                        exact h2.2.1.symm
                    | cons tok2 srcRest2 =>
                        exact tokenDispatch_err
                          ⟨.typObject :: tailTypes, data⟩ tok2 (some key)
                          srcRest2 h
                | delim d =>
                    have h2 : ((.error .invalidKey,
                        (⟨Ttype.typObject :: tailTypes, data⟩ : Converter),
                        srcRest) :
                        Except ConvErr XToken × Converter × List JToken) =
                        (.error e, c', src') := by
                      refine Eq.trans ?_ h
                      cases d with
                      | objClose => exact absurd rfl hclose
                      | objOpen => rfl
                      | arrOpen => rfl
                      | arrClose => rfl
                    simp only [Prod.mk.injEq] at h2
                    exact h2.2.1.symm
                | bool b =>
                    have h2 : ((.error .invalidKey,
                        (⟨Ttype.typObject :: tailTypes, data⟩ : Converter),
                        srcRest) :
                        Except ConvErr XToken × Converter × List JToken) =
                        (.error e, c', src') := h
                    simp only [Prod.mk.injEq] at h2
                    exact h2.2.1.symm
                | num s2 =>
                    have h2 : ((.error .invalidKey,
                        (⟨Ttype.typObject :: tailTypes, data⟩ : Converter),
                        srcRest) :
                        Except ConvErr XToken × Converter × List JToken) =
                        (.error e, c', src') := h
                    simp only [Prod.mk.injEq] at h2
                    exact h2.2.1.symm
                | null =>
                    have h2 : ((.error .invalidKey,
                        (⟨Ttype.typObject :: tailTypes, data⟩ : Converter),
                        srcRest) :
                        Except ConvErr XToken × Converter × List JToken) =
                        (.error e, c', src') := h
                    simp only [Prod.mk.injEq] at h2
                    exact h2.2.1.symm
                | other =>
                    have h2 : ((.error .invalidKey,
                        (⟨Ttype.typObject :: tailTypes, data⟩ : Converter),
                        srcRest) :
                        Except ConvErr XToken × Converter × List JToken) =
                        (.error e, c', src') := h
                    simp only [Prod.mk.injEq] at h2
                    exact h2.2.1.symm
          | typArray =>
              exact tokenDispatch_err ⟨.typArray :: tailTypes, data⟩ tok none
                srcRest h
          | typBool =>
              exact tokenDispatch_err ⟨.typBool :: tailTypes, data⟩ tok none
                srcRest h
          | typNumber =>
              exact tokenDispatch_err ⟨.typNumber :: tailTypes, data⟩ tok none
                srcRest h
          | typString =>
              exact tokenDispatch_err ⟨.typString :: tailTypes, data⟩ tok none
                srcRest h
          | typNull =>
              exact tokenDispatch_err ⟨.typNull :: tailTypes, data⟩ tok none
                srcRest h

/-- C10: every error return from `Token` leaves the converter's observable
state — the nesting stack and the pending char-data slot — exactly as it
was before the call: every error path returns before any mutation. -/
theorem claim_C10 (c : Converter) (src : List JToken) (e : ConvErr)
    (c' : Converter) (src' : List JToken)
    (h : token c src = (.error e, c', src')) : c' = c := by
  obtain ⟨types, data⟩ := c
  cases data with
  | some d =>
      have h2 : ((.ok (XToken.charData d), (⟨types, none⟩ : Converter), src) :
          Except ConvErr XToken × Converter × List JToken) =
          (.error e, c', src') := h
      simp at h2
  | none =>
      cases types with
      | nil => exact tokenPull_err ⟨[], none⟩ src h
      | cons ty tailTypes =>
          cases ty with
          | typObject => exact tokenPull_err ⟨.typObject :: tailTypes, none⟩ src h
          | typArray => exact tokenPull_err ⟨.typArray :: tailTypes, none⟩ src h
          | typBool =>
              have h2 : ((.ok (XToken.endElement "boolean"),
                  (⟨tailTypes, none⟩ : Converter), src) :
                  Except ConvErr XToken × Converter × List JToken) =
                  (.error e, c', src') := h
              simp at h2
          | typNumber =>
              have h2 : ((.ok (XToken.endElement "number"),
                  (⟨tailTypes, none⟩ : Converter), src) :
                  Except ConvErr XToken × Converter × List JToken) =
                  (.error e, c', src') := h
              simp at h2
          | typString =>
              have h2 : ((.ok (XToken.endElement "string"),
                  (⟨tailTypes, none⟩ : Converter), src) :
                  Except ConvErr XToken × Converter × List JToken) =
                  (.error e, c', src') := h
              simp at h2
          | typNull =>
              have h2 : ((.ok (XToken.endElement "null"),
                  (⟨tailTypes, none⟩ : Converter), src) :
                  Except ConvErr XToken × Converter × List JToken) =
                  (.error e, c', src') := h
              simp at h2

theorem claim_C10_witness :
    (⟨[Ttype.typObject], none⟩ : Converter) = ⟨[Ttype.typObject], none⟩ :=
  claim_C10 ⟨[Ttype.typObject], none⟩ [JToken.bool true] .invalidKey
    ⟨[Ttype.typObject], none⟩ [] rfl

end Json2Xml
